import Mathlib

/-!
Verification of the cf-ddns reconciliation scripts.

This file is a shallow embedding of the two Python scripts
`src/cf-ddns-sync.py` and `src/cf-ddns.py`.  Both scripts share the same
reconciliation algorithm (`sync_records` / `sync_dns_records`): build a
dict from record content to record, iterate the source addresses issuing
creates and updates, then iterate the dict issuing deletes, and finally
write a cache.  The embedding models

* DNS records, the remote server state, and the mutation operations;
* the Python dict used to key records by content (insertion order,
  last-value-wins on duplicate keys);
* the create/update loop and the delete loop, producing the final server
  state, the locally assembled record list (`updated_records` in
  `cf-ddns.py`), and the trace of issued operations;
* the cache validity checks of both scripts, the cache read/write
  exception behaviour, address collection, and the whole `sync`
  run pipeline of `cf-ddns-sync.py` with its trace of directory calls.

All external calls are modelled as succeeding; the claims under
verification are about runs in which every directory call succeeds,
except for the cache-I/O claims where the possible failure points are
modelled explicitly.
-/

namespace CfDdns

/-! ### String ordering

Python compares strings lexicographically by code point.  Batteries'
`String.ltb` does not reduce in the kernel, so we define the same
lexicographic comparison on the underlying character lists. -/

/-- Lexicographic strict comparison of character lists by code point,
    as Python compares strings. -/
def charListLtb : List Char → List Char → Bool
  | [], [] => false
  | [], _ :: _ => true
  | _ :: _, [] => false
  | c :: cs, d :: ds =>
    if c.val < d.val then true
    else if d.val < c.val then false
    else charListLtb cs ds

/-- Python-style strict string comparison. -/
def strLtb (a b : String) : Bool := charListLtb a.data b.data

/-- Python-style non-strict string comparison. -/
def strLeb (a b : String) : Bool := !strLtb b a

/-! ### Data model -/

/-- A remote DNS A record: server-assigned id, content (the IPv4 address
    string) and ttl.  The `type` and `name` fields of the JSON objects are
    constant over one run (type `A`, the target hostname) and are omitted. -/
structure DnsRecord where
  id : Nat
  content : String
  ttl : Nat
deriving DecidableEq

/-- A cache file snapshot: `{'timestamp': ..., 'records': [...]}`. -/
structure CacheEntry where
  timestamp : Nat
  records : List DnsRecord
deriving DecidableEq

/-- The remote DNS directory state: the A records for the target hostname,
    plus a counter from which fresh record ids are assigned on create. -/
structure Server where
  records : List DnsRecord
  nextId : Nat
deriving DecidableEq

/-- A mutation operation issued to the DNS directory.  `_delete_record`
    receives both the record id and the ip (the latter for logging), so the
    delete operation carries both. -/
inductive Op where
  | create (ip : String) (ttl : Nat)
  | update (rid : Nat) (ip : String) (ttl : Nat)
  | delete (rid : Nat) (ip : String)
deriving DecidableEq

/-- A call to the DNS directory: the listing call plus the mutations. -/
inductive DirCall where
  | list
  | create (ip : String) (ttl : Nat)
  | update (rid : Nat) (ip : String) (ttl : Nat)
  | delete (rid : Nat) (ip : String)
deriving DecidableEq

/-- View a mutation operation as a directory call. -/
def opCall : Op → DirCall
  | .create ip ttl => .create ip ttl
  | .update rid ip ttl => .update rid ip ttl
  | .delete rid ip => .delete rid ip

/-! ### Sorting

`cf-ddns-sync.py` sorts the address set (`sorted(list(addresses))`) and the
record list (`sorted(records, key=lambda x: x['content'])`); `cf-ddns.py`
does the same.  We model `sorted` as insertion sort; only the fact that the
result is a permutation of the input is used in the proofs. -/

/-- Insert a string into a list, before the first element it does not
    exceed. -/
def insertStr (x : String) : List String → List String
  | [] => [x]
  | y :: ys => if strLeb x y then x :: y :: ys else y :: insertStr x ys

/-- Model of Python `sorted` on a list of strings. -/
def sortStrings (l : List String) : List String := l.foldr insertStr []

/-- Insert a record into a list ordered by content. -/
def insertRec (x : DnsRecord) : List DnsRecord → List DnsRecord
  | [] => [x]
  | y :: ys => if strLeb x.content y.content then x :: y :: ys else y :: insertRec x ys

/-- Model of Python `sorted(records, key=lambda r: r['content'])`. -/
def sortByContent (l : List DnsRecord) : List DnsRecord := l.foldr insertRec []

/-! ### The Python dict keyed by content

`existing_ips = {record['content']: record for record in target_records}`
(`target_ips` in `cf-ddns.py`).  A Python dict comprehension keeps keys in
first-insertion order and, on a duplicate key, keeps the key's original
position but overwrites the value (last value wins). -/

/-- One dict assignment `m[k] = v`: replace the value in place if the key
    exists, otherwise append the new pair. -/
def dictInsert (k : String) (v : DnsRecord) :
    List (String × DnsRecord) → List (String × DnsRecord)
  | [] => [(k, v)]
  | p :: ps => if p.1 = k then (k, v) :: ps else p :: dictInsert k v ps

/-- Dict lookup `m[k]` / `k in m`. -/
def dictGet (k : String) : List (String × DnsRecord) → Option DnsRecord
  | [] => none
  | p :: ps => if p.1 = k then some p.2 else dictGet k ps

/-- The dict comprehension `{record['content']: record for record in rs}`. -/
def buildByContent (rs : List DnsRecord) : List (String × DnsRecord) :=
  rs.foldl (fun m r => dictInsert r.content r m) []

/-! ### Server operations

The directory calls as state transformers on the remote zone; every call
is modelled as succeeding. -/

/-- `POST zones/{zone}/dns_records`: the server stores a new record with a
    fresh id and returns it. -/
def Server.createRec (s : Server) (ip : String) (ttl : Nat) : Server :=
  ⟨s.records ++ [⟨s.nextId, ip, ttl⟩], s.nextId + 1⟩

/-- `PUT zones/{zone}/dns_records/{rid}`: the server replaces the record
    with the given id. -/
def Server.updateRec (s : Server) (rid : Nat) (ip : String) (ttl : Nat) : Server :=
  ⟨s.records.map (fun r => if r.id = rid then ⟨rid, ip, ttl⟩ else r), s.nextId⟩

/-- `DELETE zones/{zone}/dns_records/{rid}`: the server removes the record
    with the given id. -/
def Server.deleteRec (s : Server) (rid : Nat) : Server :=
  ⟨s.records.filter (fun r => r.id ≠ rid), s.nextId⟩

/-! ### The reconciliation loops

`sync_records` (`cf-ddns-sync.py` lines 126-147) and `sync_dns_records`
(`cf-ddns.py` lines 231-311) run the same two loops.  The decision taken
for each source ip depends only on the dict built from `target_records`,
never on the evolving server state, so executing each operation as it is
decided (as the Python code does) is the same as the sequential
application modelled here.  The loop returns the final server state, the
`updated_records` list assembled by `cf-ddns.py` (the API response record
for an update or create, the existing record for a skip), and the list of
issued operations in order.  The Python test `if record.get('ttl') !=
self.ttl` is rendered with the branches swapped (`=` selects the skip). -/

/-- The create/update loop over the source addresses. -/
def cuLoop (existing : List (String × DnsRecord)) (ttl : Nat) :
    List String → Server → Server × List DnsRecord × List Op
  | [], s => (s, [], [])
  | ip :: rest, s =>
    match dictGet ip existing with
    | some r =>
      if r.ttl = ttl then
        ((cuLoop existing ttl rest s).1,
         r :: (cuLoop existing ttl rest s).2.1,
         (cuLoop existing ttl rest s).2.2)
      else
        ((cuLoop existing ttl rest (s.updateRec r.id ip ttl)).1,
         ⟨r.id, ip, ttl⟩ :: (cuLoop existing ttl rest (s.updateRec r.id ip ttl)).2.1,
         Op.update r.id ip ttl :: (cuLoop existing ttl rest (s.updateRec r.id ip ttl)).2.2)
    | none =>
      ((cuLoop existing ttl rest (s.createRec ip ttl)).1,
       ⟨s.nextId, ip, ttl⟩ :: (cuLoop existing ttl rest (s.createRec ip ttl)).2.1,
       Op.create ip ttl :: (cuLoop existing ttl rest (s.createRec ip ttl)).2.2)

/-- The delete loop over the dict items (`for ip, record in
    existing_ips.items(): if ip not in source_ips: delete`). -/
def delLoop (sourceIps : List String) :
    List (String × DnsRecord) → Server → Server × List Op
  | [], s => (s, [])
  | p :: ps, s =>
    if p.1 ∈ sourceIps then delLoop sourceIps ps s
    else
      ((delLoop sourceIps ps (s.deleteRec p.2.id)).1,
       Op.delete p.2.id p.1 :: (delLoop sourceIps ps (s.deleteRec p.2.id)).2)

/-- One run of the reconciliation body shared by `sync_records` and
    `sync_dns_records`. -/
def syncRun (sourceIps : List String) (targetRecords : List DnsRecord)
    (ttl : Nat) (s : Server) : Server × List DnsRecord × List Op :=
  ((delLoop sourceIps (buildByContent targetRecords)
      (cuLoop (buildByContent targetRecords) ttl sourceIps s).1).1,
   (cuLoop (buildByContent targetRecords) ttl sourceIps s).2.1,
   (cuLoop (buildByContent targetRecords) ttl sourceIps s).2.2 ++
     (delLoop sourceIps (buildByContent targetRecords)
       (cuLoop (buildByContent targetRecords) ttl sourceIps s).1).2)

/-- The remote server state after a run. -/
def syncServer (sourceIps : List String) (targetRecords : List DnsRecord)
    (ttl : Nat) (s : Server) : Server :=
  (syncRun sourceIps targetRecords ttl s).1

/-- The `updated_records` list that `cf-ddns.py` assembles during the run
    and later writes to the cache. -/
def syncAssembled (sourceIps : List String) (targetRecords : List DnsRecord)
    (ttl : Nat) (s : Server) : List DnsRecord :=
  (syncRun sourceIps targetRecords ttl s).2.1

/-- The mutation operations issued during a run, in order. -/
def syncOps (sourceIps : List String) (targetRecords : List DnsRecord)
    (ttl : Nat) (s : Server) : List Op :=
  (syncRun sourceIps targetRecords ttl s).2.2

/-- What `cf-ddns-sync.py` writes to the cache at the end of
    `sync_records`: the record list re-fetched from the directory after the
    mutations, i.e. the live post-run server records. -/
def cacheWrittenSyncVariant (sourceIps : List String)
    (targetRecords : List DnsRecord) (ttl : Nat) (s : Server) : List DnsRecord :=
  (syncServer sourceIps targetRecords ttl s).records

/-- What `cf-ddns.py` writes to the cache at the end of
    `sync_dns_records`: the locally assembled `updated_records`, sorted by
    content by `write_cache`. -/
def cacheWrittenDdnsVariant (sourceIps : List String)
    (targetRecords : List DnsRecord) (ttl : Nat) (s : Server) : List DnsRecord :=
  sortByContent (syncAssembled sourceIps targetRecords ttl s)

/-! ### Address collection

`get_public_ipv4_addresses` (`cf-ddns-sync.py` lines 27-51) and
`get_source_ipv4_addresses` (`cf-ddns.py` lines 99-122).  Each interface
lookup (or the single ambient lookup) yields an optional public address;
failed lookups contribute nothing.  Duplicates are dropped, and if the
final set is empty the run exits with status 1; otherwise the sorted
address list is returned. -/

/-- Collect the successful lookups, dropping duplicates. -/
def collectAddresses (lookups : List (Option String)) : List String :=
  lookups.foldl
    (fun acc o => match o with
      | some ip => if ip ∈ acc then acc else acc ++ [ip]
      | none => acc) []

/-- The address-resolution step: `Except.error` models
    `print("ERROR: Cannot get public IPv4 address."); sys.exit(1)`. -/
def get_public_ipv4_addresses (lookups : List (Option String)) :
    Except Unit (List String) :=
  if collectAddresses lookups = [] then Except.error ()
  else Except.ok (sortStrings (collectAddresses lookups))

/-! ### Cache validity

`_should_refresh_cache` (`cf-ddns-sync.py` lines 102-107) and the inline
check in `get_target_dns_records` (`cf-ddns.py` lines 207-228). -/

/-- The `cf-ddns-sync.py` check: refresh when there is no cache or no
    cached records; otherwise compare the source count against the number
    of distinct cached contents (`cached_ips` is a Python set) and require
    every source ip to be cached. -/
def should_refresh_cache : Option CacheEntry → List String → Bool
  | none, _ => true
  | some c, sourceIps =>
    if c.records = [] then true
    else
      decide (sourceIps.length ≠ ((c.records.map DnsRecord.content).dedup).length) ||
        sourceIps.any (fun ip => decide (ip ∉ (c.records.map DnsRecord.content).dedup))

/-- The `cf-ddns.py` check: `use_cache` is true when the cache was read
    (`cached_records is not None`), the source count equals the number of
    cached records counted with multiplicity (`cached_ips` is a sorted
    list, not a set), and every source ip occurs among the cached
    contents. -/
def use_cache_check (cachedRecords : Option (List DnsRecord))
    (sourceAddresses : List String) : Bool :=
  match cachedRecords with
  | none => false
  | some rs =>
    decide (sourceAddresses.length = (sortStrings (rs.map DnsRecord.content)).length) &&
      sourceAddresses.all (fun ip => decide (ip ∈ sortStrings (rs.map DnsRecord.content)))

/-- Validity predicate following the specification's words, for comparison
    with the two implemented checks: valid iff the cache is present,
    non-empty, and the set of its records' content values is set-equal to
    the source address set. -/
def specCacheValid (cachedRecords : Option (List DnsRecord))
    (sourceAddresses : List String) : Bool :=
  match cachedRecords with
  | none => false
  | some rs =>
    decide (rs ≠ []) &&
      (rs.map DnsRecord.content).all (fun c => decide (c ∈ sourceAddresses)) &&
      sourceAddresses.all (fun ip => decide (ip ∈ rs.map DnsRecord.content))

/-- `get_dns_records` (`cf-ddns-sync.py` lines 73-84): on refresh, fetch
    from the directory (and write the cache); otherwise use the cached
    records.  Returns the sorted record list and whether the directory
    `list` call was made. -/
def get_dns_records (cache : Option CacheEntry) (sourceIps : List String)
    (fetched : List DnsRecord) : List DnsRecord × Bool :=
  match cache with
  | none => (sortByContent fetched, true)
  | some c =>
    if should_refresh_cache (some c) sourceIps then (sortByContent fetched, true)
    else (sortByContent c.records, false)

/-! ### Cache read/write exception behaviour

The possible failure points of the cache file I/O are modelled explicitly;
`Except.error` means an uncaught Python exception propagates out of the
function (aborting the run with a traceback and non-zero status). -/

/-- The outcome of attempting to read and parse the cache file. -/
inductive ReadOutcome where
  | missing
  | permissionDenied
  | corrupt
  | ok (data : CacheEntry)
deriving DecidableEq

/-- `_read_cache` (`cf-ddns-sync.py` lines 86-91): `except
    (FileNotFoundError, json.JSONDecodeError)` returns `None`; a
    `PermissionError` is not caught and propagates. -/
def read_cache_sync_variant : ReadOutcome → Except String (Option CacheEntry)
  | .missing => Except.ok none
  | .corrupt => Except.ok none
  | .permissionDenied => Except.error "PermissionError"
  | .ok d => Except.ok (some d)

/-- `read_cache` (`cf-ddns.py` lines 131-142): `except (FileNotFoundError,
    json.JSONDecodeError, PermissionError)` returns `None`; on success the
    records are returned sorted by content. -/
def read_cache_ddns_variant : ReadOutcome → Except String (Option (List DnsRecord))
  | .missing => Except.ok none
  | .corrupt => Except.ok none
  | .permissionDenied => Except.ok none
  | .ok d => Except.ok (some (sortByContent d.records))

/-- `_write_cache` (`cf-ddns-sync.py` lines 93-100): `os.makedirs` and the
    `open`/`json.dump` are not wrapped in any `try`, so a failure of either
    step propagates. -/
def write_cache_sync_variant (mkdirOk openOk : Bool) : Except String Unit :=
  if !mkdirOk then Except.error "OSError"
  else if !openOk then Except.error "OSError"
  else Except.ok ()

/-- `write_cache` (`cf-ddns.py` lines 145-161): `mkdir` runs before the
    `try`, so its failure propagates; the `open`/`json.dump` are inside
    `try ... except Exception: pass`, so their failure is swallowed. -/
def write_cache_ddns_variant (mkdirOk _openOk : Bool) : Except String Unit :=
  if !mkdirOk then Except.error "OSError"
  else Except.ok ()

/-! ### The whole `sync` run of `cf-ddns-sync.py`

`main`: resolve addresses (exiting on an empty set), obtain the target
records (from cache or via a `list` call), run the reconciliation loops,
then re-fetch (a second `list` call) and write the cache.  The result is
the trace of directory calls in order and, when the run does not exit
early, the final server state.  `none` models termination with a non-zero
exit status. -/

/-- One full `sync` run of `cf-ddns-sync.py`. -/
def runSyncPipeline (lookups : List (Option String)) (cache : Option CacheEntry)
    (ttl : Nat) (s : Server) : List DirCall × Option Server :=
  match get_public_ipv4_addresses lookups with
  | .error _ => ([], none)
  | .ok sourceIps =>
    ((if (get_dns_records cache sourceIps s.records).2 then [DirCall.list] else []) ++
       (syncOps sourceIps (get_dns_records cache sourceIps s.records).1 ttl s).map opCall ++
       [DirCall.list],
     some (syncServer sourceIps (get_dns_records cache sourceIps s.records).1 ttl s))

/-! ### Trace views

Helper definitions used to state properties of the operation trace. -/

/-- The decision the create/update loop takes for one source ip, as a
    function of the dict built from the target records. -/
def cuDecide (existing : List (String × DnsRecord)) (ttl : Nat) (ip : String) : Option Op :=
  match dictGet ip existing with
  | some r => if r.ttl = ttl then none else some (Op.update r.id ip ttl)
  | none => some (Op.create ip ttl)

/-- Whether an operation is a delete. -/
def isDeleteOp : Op → Bool
  | .delete _ _ => true
  | _ => false

/-- The source ip a create or update operation processes. -/
def opSourceIp : Op → Option String
  | .create ip _ => some ip
  | .update _ ip _ => some ip
  | .delete _ _ => none

/-- The content of the record a delete operation removes. -/
def opDeleteIp : Op → Option String
  | .delete _ ip => some ip
  | _ => none

/-- The record id an operation addresses, if any. -/
def opRefsId : Op → Option Nat
  | .create _ _ => none
  | .update rid _ _ => some rid
  | .delete rid _ => some rid

/-! ## Lemmas about the dict model -/

theorem dictGet_dictInsert (k k' : String) (v : DnsRecord) :
    ∀ m, dictGet k (dictInsert k' v m) =
      if k' = k then some v else dictGet k m := by
  intro m
  induction m with
  | nil =>
    show dictGet k [(k', v)] = _
    by_cases h : k' = k <;> simp [dictGet, h]
  | cons p ps ih =>
    by_cases h : p.1 = k'
    · rw [show dictInsert k' v (p :: ps) = (k', v) :: ps from by simp [dictInsert, h]]
      by_cases h' : k' = k
      · simp [dictGet, h']
      · have hpk : ¬p.1 = k := fun e => h' (h.symm.trans e)
        rw [show dictGet k ((k', v) :: ps) = dictGet k ps from by simp [dictGet, h']]
        rw [if_neg h']
        simp [dictGet, hpk]
    · rw [show dictInsert k' v (p :: ps) = p :: dictInsert k' v ps from by
        simp [dictInsert, h]]
      by_cases h' : p.1 = k
      · have hkk : ¬k' = k := fun e => h (h'.trans e.symm)
        simp [dictGet, h', hkk]
      · simp [dictGet, h', ih]

theorem mem_dictInsert {p : String × DnsRecord} {k : String} {v : DnsRecord} :
    ∀ {m}, p ∈ dictInsert k v m → p = (k, v) ∨ p ∈ m := by
  intro m
  induction m with
  | nil =>
    intro h
    rw [show dictInsert k v [] = [(k, v)] from rfl] at h
    exact Or.inl (List.mem_singleton.1 h)
  | cons q qs ih =>
    intro hmem
    by_cases h : q.1 = k
    · rw [show dictInsert k v (q :: qs) = (k, v) :: qs from by simp [dictInsert, h]] at hmem
      rcases List.mem_cons.1 hmem with h' | h'
      · exact Or.inl h'
      · exact Or.inr (List.mem_cons_of_mem _ h')
    · rw [show dictInsert k v (q :: qs) = q :: dictInsert k v qs from by
        simp [dictInsert, h]] at hmem
      rcases List.mem_cons.1 hmem with h' | h'
      · exact Or.inr (by rw [h']; exact List.mem_cons_self _ _)
      · rcases ih h' with h'' | h''
        · exact Or.inl h''
        · exact Or.inr (List.mem_cons_of_mem _ h'')

theorem mem_keys_dictInsert {a k : String} {v : DnsRecord} :
    ∀ {m}, a ∈ (dictInsert k v m).map Prod.fst →
      a = k ∨ a ∈ m.map Prod.fst := by
  intro m hmem
  rcases List.mem_map.1 hmem with ⟨p, hp, rfl⟩
  rcases mem_dictInsert hp with rfl | hp'
  · exact Or.inl rfl
  · exact Or.inr (List.mem_map.2 ⟨p, hp', rfl⟩)

theorem keys_dictInsert (k : String) (v : DnsRecord) :
    ∀ m, (dictInsert k v m).map Prod.fst = m.map Prod.fst ∨
      (dictInsert k v m).map Prod.fst = m.map Prod.fst ++ [k] := by
  intro m
  induction m with
  | nil => simp [dictInsert]
  | cons q qs ih =>
    by_cases h : q.1 = k
    · simp [dictInsert, h]
    · rcases ih with h' | h'
      · exact Or.inl (by simp [dictInsert, h, h'])
      · exact Or.inr (by simp [dictInsert, h, h'])

theorem keys_nodup_dictInsert {k : String} {v : DnsRecord} :
    ∀ {m}, (m.map Prod.fst).Nodup → ((dictInsert k v m).map Prod.fst).Nodup := by
  intro m
  induction m with
  | nil => simp [dictInsert]
  | cons q qs ih =>
    intro hn
    rw [List.map_cons, List.nodup_cons] at hn
    by_cases h : q.1 = k
    · rw [show dictInsert k v (q :: qs) = (k, v) :: qs from by simp [dictInsert, h]]
      rw [List.map_cons, List.nodup_cons]
      exact ⟨h ▸ hn.1, hn.2⟩
    · rw [show dictInsert k v (q :: qs) = q :: dictInsert k v qs from by
        simp [dictInsert, h]]
      rw [List.map_cons, List.nodup_cons]
      refine ⟨fun hmem => ?_, ih hn.2⟩
      rcases mem_keys_dictInsert hmem with h' | h'
      · exact h h'
      · exact hn.1 h'

theorem dictGet_mem {k : String} {v : DnsRecord} :
    ∀ {m}, dictGet k m = some v → (k, v) ∈ m := by
  intro m
  induction m with
  | nil => simp [dictGet]
  | cons q qs ih =>
    intro hg
    by_cases h : q.1 = k
    · rw [show dictGet k (q :: qs) = some q.2 from by simp [dictGet, h]] at hg
      have : (k, v) = q := by
        cases q with
        | mk a b =>
          simp only [Option.some_inj] at hg
          simp only at h hg
          rw [h, hg]
      rw [this]
      exact List.mem_cons_self _ _
    · rw [show dictGet k (q :: qs) = dictGet k qs from by simp [dictGet, h]] at hg
      exact List.mem_cons_of_mem _ (ih hg)

theorem dictGet_of_mem_keys_nodup {k : String} {v : DnsRecord} :
    ∀ {m}, (m.map Prod.fst).Nodup → (k, v) ∈ m → dictGet k m = some v := by
  intro m
  induction m with
  | nil => simp
  | cons q qs ih =>
    intro hn hm
    rw [List.map_cons, List.nodup_cons] at hn
    rcases List.mem_cons.1 hm with rfl | hm'
    · simp [dictGet]
    · have hk : q.1 ≠ k := by
        intro e
        exact hn.1 (e ▸ List.mem_map.2 ⟨(k, v), hm', rfl⟩)
      simp only [dictGet, hk, if_neg, not_false_iff]
      exact ih hn.2 hm'

/-- Auxiliary: a pair predicate preserved by the dict-building fold. -/
theorem foldl_dictInsert_pred (P : String × DnsRecord → Prop) :
    ∀ (rs : List DnsRecord) (acc : List (String × DnsRecord)),
      (∀ p ∈ acc, P p) → (∀ r ∈ rs, P (r.content, r)) →
      ∀ p ∈ rs.foldl (fun m r => dictInsert r.content r m) acc, P p := by
  intro rs
  induction rs with
  | nil => intro acc hacc _ p hp; exact hacc p hp
  | cons r rs ih =>
    intro acc hacc hrs p hp
    refine ih (dictInsert r.content r acc) ?_ (fun r' h' => hrs r' (List.mem_cons_of_mem _ h')) p hp
    intro q hq
    rcases mem_dictInsert hq with rfl | hq'
    · exact hrs r (List.mem_cons_self _ _)
    · exact hacc q hq'

theorem mem_buildByContent {rs : List DnsRecord} {p : String × DnsRecord} :
    p ∈ buildByContent rs → p.2 ∈ rs ∧ p.2.content = p.1 := by
  intro hp
  exact foldl_dictInsert_pred (fun p => p.2 ∈ rs ∧ p.2.content = p.1) rs []
    (by simp) (fun r hr => ⟨hr, rfl⟩) p hp

theorem keys_buildByContent_nodup (rs : List DnsRecord) :
    ((buildByContent rs).map Prod.fst).Nodup := by
  have aux : ∀ (l : List DnsRecord) (acc : List (String × DnsRecord)),
      (acc.map Prod.fst).Nodup →
      ((l.foldl (fun m r => dictInsert r.content r m) acc).map Prod.fst).Nodup := by
    intro l
    induction l with
    | nil => intro acc h; exact h
    | cons r l ih => intro acc h; exact ih _ (keys_nodup_dictInsert h)
  exact aux rs [] (by simp)

/-- The dict lookup is the last record in `rs` with the given content. -/
theorem dictGet_buildByContent (rs : List DnsRecord) (k : String) :
    dictGet k (buildByContent rs) =
      rs.reverse.find? (fun r => decide (r.content = k)) := by
  have aux : ∀ (l : List DnsRecord) (acc : List (String × DnsRecord)),
      dictGet k (l.foldl (fun m r => dictInsert r.content r m) acc) =
        (l.reverse.find? (fun r => decide (r.content = k))).or (dictGet k acc) := by
    intro l
    induction l with
    | nil => intro acc; simp
    | cons r l ih =>
      intro acc
      show dictGet k (l.foldl _ (dictInsert r.content r acc)) = _
      rw [ih, List.reverse_cons, List.find?_append, Option.or_assoc]
      congr 1
      rw [dictGet_dictInsert]
      by_cases h : r.content = k
      · simp [h]
      · simp [h, List.find?_cons_of_neg]
  rw [buildByContent, aux rs []]
  simp [dictGet]

theorem dictGet_buildByContent_isSome {rs : List DnsRecord} {k : String} :
    (dictGet k (buildByContent rs)).isSome ↔ k ∈ rs.map DnsRecord.content := by
  rw [dictGet_buildByContent, List.find?_isSome]
  constructor
  · rintro ⟨r, hr, hp⟩
    exact List.mem_map.2 ⟨r, List.mem_reverse.1 hr, of_decide_eq_true hp⟩
  · intro h
    rcases List.mem_map.1 h with ⟨r, hr, rfl⟩
    exact ⟨r, List.mem_reverse.2 hr, by simp⟩

theorem dictInsert_of_not_mem_keys {k : String} {v : DnsRecord} :
    ∀ {m}, k ∉ m.map Prod.fst → dictInsert k v m = m ++ [(k, v)] := by
  intro m
  induction m with
  | nil => simp [dictInsert]
  | cons q qs ih =>
    intro h
    rw [List.map_cons, List.mem_cons] at h
    push_neg at h
    have hq : ¬q.1 = k := fun e => h.1 e.symm
    rw [show dictInsert k v (q :: qs) = q :: dictInsert k v qs from by
      simp [dictInsert, hq]]
    rw [ih h.2, List.cons_append]

/-- When the contents of `rs` are pairwise distinct, the dict is just the
    association list pairing each record with its content. -/
theorem buildByContent_eq_map {rs : List DnsRecord} :
    (rs.map DnsRecord.content).Nodup →
      buildByContent rs = rs.map (fun r => (r.content, r)) := by
  have aux : ∀ (l : List DnsRecord) (acc : List (String × DnsRecord)),
      (∀ r ∈ l, r.content ∉ acc.map Prod.fst) → (l.map DnsRecord.content).Nodup →
      l.foldl (fun m r => dictInsert r.content r m) acc =
        acc ++ l.map (fun r => (r.content, r)) := by
    intro l
    induction l with
    | nil => intro acc _ _; simp
    | cons r l ih =>
      intro acc hacc hn
      rw [List.map_cons, List.nodup_cons] at hn
      show l.foldl _ (dictInsert r.content r acc) = _
      rw [dictInsert_of_not_mem_keys (hacc r (List.mem_cons_self _ _)), ih]
      · simp
      · intro r' hr'
        rw [List.map_append, List.mem_append]
        push_neg
        refine ⟨hacc r' (List.mem_cons_of_mem _ hr'), ?_⟩
        simp only [List.map_cons, List.map_nil, List.mem_singleton]
        intro e
        exact hn.1 (e ▸ List.mem_map.2 ⟨r', hr', rfl⟩)
      · exact hn.2
  intro h
  rw [buildByContent, aux rs [] (by simp) h, List.nil_append]

theorem mem_buildByContent_self {rs : List DnsRecord} {r : DnsRecord}
    (hn : (rs.map DnsRecord.content).Nodup) (hr : r ∈ rs) :
    (r.content, r) ∈ buildByContent rs := by
  rw [buildByContent_eq_map hn]
  exact List.mem_map.2 ⟨r, hr, rfl⟩

theorem dictGet_self_of_nodup {rs : List DnsRecord} {r : DnsRecord}
    (hn : (rs.map DnsRecord.content).Nodup) (hr : r ∈ rs) :
    dictGet r.content (buildByContent rs) = some r :=
  dictGet_of_mem_keys_nodup (keys_buildByContent_nodup rs) (mem_buildByContent_self hn hr)

theorem keys_buildByContent_sublist (rs : List DnsRecord) :
    ((buildByContent rs).map Prod.fst).Sublist (rs.map DnsRecord.content) := by
  have aux : ∀ (l : List DnsRecord) (acc : List (String × DnsRecord)),
      ((l.foldl (fun m r => dictInsert r.content r m) acc).map Prod.fst).Sublist
        (acc.map Prod.fst ++ l.map DnsRecord.content) := by
    intro l
    induction l with
    | nil => intro acc; simp
    | cons r l ih =>
      intro acc
      show ((l.foldl _ (dictInsert r.content r acc)).map Prod.fst).Sublist _
      refine (ih (dictInsert r.content r acc)).trans ?_
      rcases keys_dictInsert r.content r acc with h | h
      · rw [h, List.map_cons]
        exact List.Sublist.append_left (List.Sublist.cons _ (List.Sublist.refl _)) _
      · rw [h, List.map_cons, List.append_assoc, List.singleton_append]
  have := aux rs []
  simpa [buildByContent] using this

/-! ## Permutation lemmas for the sorts -/

theorem insertStr_perm (x : String) : ∀ l, (insertStr x l).Perm (x :: l) := by
  intro l
  induction l with
  | nil => simp [insertStr]
  | cons y ys ih =>
    by_cases h : strLeb x y = true
    · simp [insertStr, h]
    · rw [show insertStr x (y :: ys) = y :: insertStr x ys from by simp [insertStr, h]]
      exact (List.Perm.cons y ih).trans (List.Perm.swap x y ys)

theorem sortStrings_perm (l : List String) : (sortStrings l).Perm l := by
  induction l with
  | nil => simp [sortStrings]
  | cons a l ih =>
    exact (insertStr_perm a (sortStrings l)).trans (List.Perm.cons a ih)

theorem insertRec_perm (x : DnsRecord) : ∀ l, (insertRec x l).Perm (x :: l) := by
  intro l
  induction l with
  | nil => simp [insertRec]
  | cons y ys ih =>
    by_cases h : strLeb x.content y.content = true
    · simp [insertRec, h]
    · rw [show insertRec x (y :: ys) = y :: insertRec x ys from by simp [insertRec, h]]
      exact (List.Perm.cons y ih).trans (List.Perm.swap x y ys)

theorem sortByContent_perm (l : List DnsRecord) : (sortByContent l).Perm l := by
  induction l with
  | nil => simp [sortByContent]
  | cons a l ih =>
    exact (insertRec_perm a (sortByContent l)).trans (List.Perm.cons a ih)

/-! ## The operation trace

The operations issued by the two loops depend only on the dict built from
the target records, never on the evolving server state. -/

theorem cuLoop_ops (existing : List (String × DnsRecord)) (ttl : Nat) :
    ∀ (rest : List String) (s : Server),
      (cuLoop existing ttl rest s).2.2 = rest.filterMap (cuDecide existing ttl) := by
  intro rest
  induction rest with
  | nil => intro s; rfl
  | cons ip rest ih =>
    intro s
    rw [List.filterMap_cons]
    rcases hdg : dictGet ip existing with _ | r
    · simp only [cuLoop, hdg, cuDecide]
      rw [ih]
    · by_cases htt : r.ttl = ttl
      · simp only [cuLoop, hdg, cuDecide, htt, if_pos]
        rw [ih]
      · simp only [cuLoop, hdg, cuDecide, htt, if_neg, not_false_iff]
        rw [ih]

theorem delLoop_ops (sourceIps : List String) :
    ∀ (ps : List (String × DnsRecord)) (s : Server),
      (delLoop sourceIps ps s).2 = ps.filterMap
        (fun p => if p.1 ∈ sourceIps then none else some (Op.delete p.2.id p.1)) := by
  intro ps
  induction ps with
  | nil => intro s; rfl
  | cons p ps ih =>
    intro s
    rw [List.filterMap_cons]
    by_cases h : p.1 ∈ sourceIps
    · simp only [delLoop, h, if_pos]
      rw [ih]
    · simp only [delLoop, h, if_neg, not_false_iff]
      rw [ih]

theorem syncOps_eq (sourceIps : List String) (tgt : List DnsRecord) (ttl : Nat)
    (s : Server) :
    syncOps sourceIps tgt ttl s =
      sourceIps.filterMap (cuDecide (buildByContent tgt) ttl) ++
        (buildByContent tgt).filterMap
          (fun p => if p.1 ∈ sourceIps then none else some (Op.delete p.2.id p.1)) := by
  unfold syncOps syncRun
  rw [cuLoop_ops, delLoop_ops]

/-! ## No-op runs -/

theorem cuLoop_server_skip (existing : List (String × DnsRecord)) (ttl : Nat) :
    ∀ (rest : List String) (s : Server),
      (∀ ip ∈ rest, ∃ r, dictGet ip existing = some r ∧ r.ttl = ttl) →
      (cuLoop existing ttl rest s).1 = s := by
  intro rest
  induction rest with
  | nil => intro s _; rfl
  | cons ip rest ih =>
    intro s h
    rcases h ip (List.mem_cons_self _ _) with ⟨r, hr, htt⟩
    simp only [cuLoop, hr, htt, if_pos]
    exact ih s (fun ip' h' => h ip' (List.mem_cons_of_mem _ h'))

theorem delLoop_server_skip (sourceIps : List String) :
    ∀ (ps : List (String × DnsRecord)) (s : Server),
      (∀ p ∈ ps, p.1 ∈ sourceIps) → (delLoop sourceIps ps s).1 = s := by
  intro ps
  induction ps with
  | nil => intro s _; rfl
  | cons p ps ih =>
    intro s h
    simp only [delLoop, h p (List.mem_cons_self _ _), if_pos]
    exact ih s (fun p' h' => h p' (List.mem_cons_of_mem _ h'))

/-- When every source ip already has a record with the right ttl and every
    target record's content is a source ip, the run issues no operation. -/
theorem syncOps_nil (sourceIps : List String) (tgt : List DnsRecord) (ttl : Nat)
    (s : Server)
    (h1 : ∀ ip ∈ sourceIps, ip ∈ tgt.map DnsRecord.content)
    (h2 : ∀ r ∈ tgt, r.ttl = ttl)
    (h3 : ∀ r ∈ tgt, r.content ∈ sourceIps) :
    syncOps sourceIps tgt ttl s = [] := by
  rw [syncOps_eq, List.append_eq_nil]
  constructor
  · rw [List.filterMap_eq_nil_iff]
    intro ip hip
    have hsome : (dictGet ip (buildByContent tgt)).isSome :=
      dictGet_buildByContent_isSome.2 (h1 ip hip)
    rcases Option.isSome_iff_exists.1 hsome with ⟨r, hr⟩
    have hmem := mem_buildByContent (dictGet_mem hr)
    simp [cuDecide, hr, h2 r hmem.1]
  · rw [List.filterMap_eq_nil_iff]
    intro p hp
    have hmem := mem_buildByContent hp
    rw [if_pos (hmem.2 ▸ h3 p.2 hmem.1)]

/-- Under the same conditions the server state is untouched. -/
theorem syncServer_id (sourceIps : List String) (tgt : List DnsRecord) (ttl : Nat)
    (s : Server)
    (h1 : ∀ ip ∈ sourceIps, ip ∈ tgt.map DnsRecord.content)
    (h2 : ∀ r ∈ tgt, r.ttl = ttl)
    (h3 : ∀ r ∈ tgt, r.content ∈ sourceIps) :
    syncServer sourceIps tgt ttl s = s := by
  unfold syncServer syncRun
  rw [cuLoop_server_skip, delLoop_server_skip]
  · intro p hp
    have hmem := mem_buildByContent hp
    exact hmem.2 ▸ h3 p.2 hmem.1
  · intro ip hip
    have hsome : (dictGet ip (buildByContent tgt)).isSome :=
      dictGet_buildByContent_isSome.2 (h1 ip hip)
    rcases Option.isSome_iff_exists.1 hsome with ⟨r, hr⟩
    have hmem := mem_buildByContent (dictGet_mem hr)
    exact ⟨r, hr, h2 r hmem.1⟩

/-! ## Sublist helpers for the ordering claim -/

theorem filterMap_id_sublist {f : String → Option String}
    (hf : ∀ a b, f a = some b → b = a) :
    ∀ l : List String, (l.filterMap f).Sublist l := by
  intro l
  induction l with
  | nil => simp
  | cons a l ih =>
    rw [List.filterMap_cons]
    rcases hfa : f a with _ | b
    · exact ih.cons a
    · rw [hf a b hfa]
      exact ih.cons₂ a

theorem filterMap_fst_sublist {f : String × DnsRecord → Option String}
    (hf : ∀ p b, f p = some b → b = p.1) :
    ∀ l : List (String × DnsRecord), (l.filterMap f).Sublist (l.map Prod.fst) := by
  intro l
  induction l with
  | nil => simp
  | cons p l ih =>
    rw [List.filterMap_cons, List.map_cons]
    rcases hfp : f p with _ | b
    · exact ih.cons p.1
    · rw [hf p b hfp]
      exact ih.cons₂ p.1

/-! ## The delete phase -/

theorem delLoop_mem_records (sourceIps : List String) :
    ∀ (ps : List (String × DnsRecord)) (s : Server) (w : DnsRecord),
      w ∈ (delLoop sourceIps ps s).1.records ↔
        w ∈ s.records ∧ ∀ p ∈ ps, p.1 ∉ sourceIps → w.id ≠ p.2.id := by
  intro ps
  induction ps with
  | nil => intro s w; simp [delLoop]
  | cons p ps ih =>
    intro s w
    by_cases h : p.1 ∈ sourceIps
    · rw [show (delLoop sourceIps (p :: ps) s).1 = (delLoop sourceIps ps s).1 from by
        simp [delLoop, h]]
      rw [ih]
      constructor
      · rintro ⟨hw, hall⟩
        refine ⟨hw, fun q hq hnq => ?_⟩
        rcases List.mem_cons.1 hq with rfl | hq'
        · exact absurd h hnq
        · exact hall q hq' hnq
      · rintro ⟨hw, hall⟩
        exact ⟨hw, fun q hq => hall q (List.mem_cons_of_mem _ hq)⟩
    · rw [show (delLoop sourceIps (p :: ps) s).1 =
          (delLoop sourceIps ps (s.deleteRec p.2.id)).1 from by simp [delLoop, h]]
      rw [ih]
      simp only [Server.deleteRec, List.mem_filter]
      constructor
      · rintro ⟨⟨hw, hne⟩, hall⟩
        refine ⟨hw, fun q hq hnq => ?_⟩
        rcases List.mem_cons.1 hq with rfl | hq'
        · simpa using hne
        · exact hall q hq' hnq
      · rintro ⟨hw, hall⟩
        refine ⟨⟨hw, ?_⟩, fun q hq => hall q (List.mem_cons_of_mem _ hq)⟩
        simpa using hall p (List.mem_cons_self _ _) h

/-! ## Records untouched by the create/update loop -/

theorem cuLoop_preserves (existing : List (String × DnsRecord)) (ttl : Nat) :
    ∀ (rest : List String) (s : Server) (w : DnsRecord),
      (∀ ip ∈ rest, ∀ r, dictGet ip existing = some r → r.id ≠ w.id) →
      w ∈ s.records → w ∈ (cuLoop existing ttl rest s).1.records := by
  intro rest
  induction rest with
  | nil => intro s w _ hw; exact hw
  | cons ip rest ih =>
    intro s w h hw
    rcases hdg : dictGet ip existing with _ | r
    · simp only [cuLoop, hdg]
      refine ih _ w (fun ip' h' => h ip' (List.mem_cons_of_mem _ h')) ?_
      simp only [Server.createRec]
      exact List.mem_append_left _ hw
    · by_cases htt : r.ttl = ttl
      · simp only [cuLoop, hdg, htt, eq_self_iff_true, if_true]
        exact ih _ w (fun ip' h' => h ip' (List.mem_cons_of_mem _ h')) hw
      · simp only [cuLoop, hdg, if_neg htt]
        refine ih _ w (fun ip' h' => h ip' (List.mem_cons_of_mem _ h')) ?_
        have hne : r.id ≠ w.id := h ip (List.mem_cons_self _ _) r hdg
        simp only [Server.updateRec]
        refine List.mem_map.2 ⟨w, hw, ?_⟩
        rw [if_neg (fun e => hne e.symm)]

/-! ## Main analysis of the create/update loop

One induction establishes, for a dict whose pairs associate each key with
a record of that content and whose values have pairwise distinct ids,
everything the correctness claims need about the loop's final state. -/

theorem cuLoop_main (existing : List (String × DnsRecord)) (ttl : Nat)
    (hKV : ∀ p ∈ existing, p.2.content = p.1)
    (hInj : ∀ p ∈ existing, ∀ q ∈ existing, p.2.id = q.2.id → p = q) :
    ∀ (rest : List String) (s : Server),
      (∀ r ∈ s.records, r.content ∈ rest → dictGet r.content existing = some r) →
      (∀ ip ∈ rest, ∀ r, dictGet ip existing = some r → r ∈ s.records) →
      (s.records.map DnsRecord.id).Nodup →
      (s.records.map DnsRecord.content).Nodup →
      (∀ r ∈ s.records, r.id < s.nextId) →
      rest.Nodup →
      ((∀ r' ∈ (cuLoop existing ttl rest s).1.records,
          r'.content ∉ rest → r' ∈ s.records) ∧
       (∀ r' ∈ (cuLoop existing ttl rest s).1.records,
          r'.content ∈ rest → r'.ttl = ttl) ∧
       (∀ ip ∈ rest, ∃ r', r' ∈ (cuLoop existing ttl rest s).1.records ∧
          r'.content = ip ∧ r'.ttl = ttl ∧
          ((∃ r0, dictGet ip existing = some r0 ∧ r'.id = r0.id) ∨
            s.nextId ≤ r'.id)) ∧
       (∀ w ∈ s.records, w.content ∉ rest →
          w ∈ (cuLoop existing ttl rest s).1.records) ∧
       ((cuLoop existing ttl rest s).1.records.map DnsRecord.id).Nodup ∧
       (∀ r' ∈ (cuLoop existing ttl rest s).1.records,
          r'.id < (cuLoop existing ttl rest s).1.nextId) ∧
       s.nextId ≤ (cuLoop existing ttl rest s).1.nextId ∧
       ((cuLoop existing ttl rest s).1.records.map DnsRecord.content).Nodup) := by
  intro rest
  induction rest with
  | nil =>
    intro s _ _ hIds hCN hB _
    exact ⟨fun r' h' _ => h', fun r' _ h' => absurd h' (List.not_mem_nil _),
      fun ip h' => absurd h' (List.not_mem_nil _), fun w hw _ => hw,
      hIds, hB, Nat.le_refl _, hCN⟩
  | cons ip rest ih =>
    intro s hE hA hIds hCN hB hR
    rw [List.nodup_cons] at hR
    obtain ⟨hip_nr, hR'⟩ := hR
    rcases hdg : dictGet ip existing with _ | r
    · -- create branch
      have hip_not : ∀ w ∈ s.records, w.content ≠ ip := by
        intro w hw e
        have := hE w hw (by rw [e]; exact List.mem_cons_self _ _)
        rw [e, hdg] at this
        exact Option.noConfusion this
      simp only [cuLoop, hdg]
      set s1 : Server := s.createRec ip ttl with hs1
      have hrec1 : s1.records = s.records ++ [⟨s.nextId, ip, ttl⟩] := rfl
      have hnid1 : s1.nextId = s.nextId + 1 := rfl
      have hE1 : ∀ r'' ∈ s1.records, r''.content ∈ rest →
          dictGet r''.content existing = some r'' := by
        intro r'' h'' hc
        rw [hrec1] at h''
        rcases List.mem_append.1 h'' with h'' | h''
        · exact hE r'' h'' (List.mem_cons_of_mem _ hc)
        · rw [List.mem_singleton.1 h''] at hc
          exact absurd hc hip_nr
      have hA1 : ∀ ip' ∈ rest, ∀ v, dictGet ip' existing = some v → v ∈ s1.records := by
        intro ip' h' v hv
        rw [hrec1]
        exact List.mem_append_left _ (hA ip' (List.mem_cons_of_mem _ h') v hv)
      have hIds1 : (s1.records.map DnsRecord.id).Nodup := by
        rw [hrec1, List.map_append, List.nodup_append]
        refine ⟨hIds, List.nodup_singleton _, ?_⟩
        intro a ha hb
        rw [List.map_singleton, List.mem_singleton] at hb
        rcases List.mem_map.1 ha with ⟨w, hw, rfl⟩
        exact absurd (hb ▸ hB w hw) (lt_irrefl _)
      have hCN1 : (s1.records.map DnsRecord.content).Nodup := by
        rw [hrec1, List.map_append, List.nodup_append]
        refine ⟨hCN, List.nodup_singleton _, ?_⟩
        intro a ha hb
        rw [List.map_singleton, List.mem_singleton] at hb
        rcases List.mem_map.1 ha with ⟨w, hw, rfl⟩
        exact hip_not w hw hb
      have hB1 : ∀ r'' ∈ s1.records, r''.id < s1.nextId := by
        intro r'' h''
        rw [hrec1] at h''
        rw [hnid1]
        rcases List.mem_append.1 h'' with h'' | h''
        · exact Nat.lt_succ_of_lt (hB r'' h'')
        · rw [List.mem_singleton.1 h'']
          exact Nat.lt_succ_self _
      obtain ⟨c1, c2, c3, c4, c5, c6, c7, c8⟩ := ih s1 hE1 hA1 hIds1 hCN1 hB1 hR'
      refine ⟨?_, ?_, ?_, ?_, c5, c6, ?_, c8⟩
      · -- c1
        intro r' h' hc
        rw [List.mem_cons] at hc
        push_neg at hc
        have := c1 r' h' hc.2
        rw [hrec1] at this
        rcases List.mem_append.1 this with h'' | h''
        · exact h''
        · rw [List.mem_singleton.1 h''] at hc
          exact absurd rfl hc.1
      · -- c2
        intro r' h' hc
        rcases List.mem_cons.1 hc with hc | hc
        · have hnr : r'.content ∉ rest := hc ▸ hip_nr
          have := c1 r' h' hnr
          rw [hrec1] at this
          rcases List.mem_append.1 this with h'' | h''
          · exact absurd hc (hip_not r' h'')
          · rw [List.mem_singleton.1 h'']
        · exact c2 r' h' hc
      · -- c3
        intro ip' h'
        rcases List.mem_cons.1 h' with rfl | h'
        · refine ⟨⟨s.nextId, ip', ttl⟩, ?_, rfl, rfl, Or.inr (Nat.le_refl _)⟩
          refine c4 _ ?_ hip_nr
          rw [hrec1]
          exact List.mem_append_right _ (List.mem_singleton.2 rfl)
        · obtain ⟨r', hr'mem, hr'c, hr't, hprov⟩ := c3 ip' h'
          refine ⟨r', hr'mem, hr'c, hr't, ?_⟩
          rcases hprov with h'' | h''
          · exact Or.inl h''
          · exact Or.inr (le_trans (Nat.le_succ _) h'')
      · -- c4
        intro w hw hc
        rw [List.mem_cons] at hc
        push_neg at hc
        refine c4 w ?_ hc.2
        rw [hrec1]
        exact List.mem_append_left _ hw
      · -- c7
        exact le_trans (Nat.le_succ _) c7
    · by_cases htt : r.ttl = ttl
      · -- skip branch
        simp only [cuLoop, hdg, htt, eq_self_iff_true, if_true]
        have hr_mem : r ∈ s.records := hA ip (List.mem_cons_self _ _) r hdg
        have hr_content : r.content = ip := hKV _ (dictGet_mem hdg)
        have hE1 : ∀ r'' ∈ s.records, r''.content ∈ rest →
            dictGet r''.content existing = some r'' :=
          fun r'' h'' hc => hE r'' h'' (List.mem_cons_of_mem _ hc)
        have hA1 : ∀ ip' ∈ rest, ∀ v, dictGet ip' existing = some v → v ∈ s.records :=
          fun ip' h' v hv => hA ip' (List.mem_cons_of_mem _ h') v hv
        obtain ⟨c1, c2, c3, c4, c5, c6, c7, c8⟩ := ih s hE1 hA1 hIds hCN hB hR'
        refine ⟨?_, ?_, ?_, ?_, c5, c6, c7, c8⟩
        · intro r' h' hc
          rw [List.mem_cons] at hc
          push_neg at hc
          exact c1 r' h' hc.2
        · intro r' h' hc
          rcases List.mem_cons.1 hc with hc | hc
          · have hnr : r'.content ∉ rest := hc ▸ hip_nr
            have hr's : r' ∈ s.records := c1 r' h' hnr
            have := hE r' hr's (hc ▸ List.mem_cons_self _ _)
            rw [hc, hdg] at this
            exact (Option.some_inj.1 this) ▸ htt
          · exact c2 r' h' hc
        · intro ip' h'
          rcases List.mem_cons.1 h' with rfl | h'
          · refine ⟨r, c4 r hr_mem (hr_content ▸ hip_nr), hr_content, htt,
              Or.inl ⟨r, hdg, rfl⟩⟩
          · exact c3 ip' h'
        · intro w hw hc
          rw [List.mem_cons] at hc
          push_neg at hc
          exact c4 w hw hc.2
      · -- update branch
        simp only [cuLoop, hdg, if_neg htt]
        have hr_mem : r ∈ s.records := hA ip (List.mem_cons_self _ _) r hdg
        have hr_content : r.content = ip := hKV _ (dictGet_mem hdg)
        set s1 : Server := s.updateRec r.id ip ttl with hs1
        have hrec1 : s1.records =
            s.records.map (fun w => if w.id = r.id then ⟨r.id, ip, ttl⟩ else w) := rfl
        have hnid1 : s1.nextId = s.nextId := rfl
        have hid_eq : ∀ w ∈ s.records, w.id = r.id → w = r := by
          intro w hw e
          exact List.inj_on_of_nodup_map hIds hw hr_mem e
        have hupd_id : ∀ w ∈ s.records,
            (if w.id = r.id then (⟨r.id, ip, ttl⟩ : DnsRecord) else w).id = w.id := by
          intro w hw
          by_cases e : w.id = r.id
          · rw [if_pos e, e]
          · rw [if_neg e]
        have hupd_content : ∀ w ∈ s.records,
            (if w.id = r.id then (⟨r.id, ip, ttl⟩ : DnsRecord) else w).content =
              w.content := by
          intro w hw
          by_cases e : w.id = r.id
          · rw [if_pos e, hid_eq w hw e, hr_content]
          · rw [if_neg e]
        have hids_eq : s1.records.map DnsRecord.id = s.records.map DnsRecord.id := by
          rw [hrec1, List.map_map]
          exact List.map_congr_left hupd_id
        have hcn_eq : s1.records.map DnsRecord.content =
            s.records.map DnsRecord.content := by
          rw [hrec1, List.map_map]
          exact List.map_congr_left hupd_content
        have hmem1 : ∀ r'' ∈ s1.records, ∃ w ∈ s.records,
            r'' = if w.id = r.id then ⟨r.id, ip, ttl⟩ else w := by
          intro r'' h''
          rw [hrec1] at h''
          rcases List.mem_map.1 h'' with ⟨w, hw, he⟩
          exact ⟨w, hw, he.symm⟩
        have hE1 : ∀ r'' ∈ s1.records, r''.content ∈ rest →
            dictGet r''.content existing = some r'' := by
          intro r'' h'' hc
          obtain ⟨w, hw, he⟩ := hmem1 r'' h''
          by_cases e : w.id = r.id
          · rw [he, if_pos e] at hc ⊢
            exact absurd hc hip_nr
          · rw [he, if_neg e] at hc ⊢
            exact hE w hw (List.mem_cons_of_mem _ hc)
        have hA1 : ∀ ip' ∈ rest, ∀ v, dictGet ip' existing = some v →
            v ∈ s1.records := by
          intro ip' h' v hv
          have hvmem : v ∈ s.records := hA ip' (List.mem_cons_of_mem _ h') v hv
          have hvne : v.id ≠ r.id := by
            intro e
            have hv_eq : v = r := hid_eq v hvmem e
            rw [hv_eq] at hv
            have hpair := hInj _ (dictGet_mem hv) _ (dictGet_mem hdg) rfl
            have : ip' = ip := congrArg Prod.fst hpair
            exact hip_nr (this ▸ h')
          rw [hrec1]
          refine List.mem_map.2 ⟨v, hvmem, ?_⟩
          rw [if_neg hvne]
        have hIds1 : (s1.records.map DnsRecord.id).Nodup := by rw [hids_eq]; exact hIds
        have hCN1 : (s1.records.map DnsRecord.content).Nodup := by
          rw [hcn_eq]; exact hCN
        have hB1 : ∀ r'' ∈ s1.records, r''.id < s1.nextId := by
          intro r'' h''
          obtain ⟨w, hw, he⟩ := hmem1 r'' h''
          rw [hnid1, he]
          by_cases e : w.id = r.id
          · rw [if_pos e]
            exact e ▸ hB w hw
          · rw [if_neg e]
            exact hB w hw
        obtain ⟨c1, c2, c3, c4, c5, c6, c7, c8⟩ := ih s1 hE1 hA1 hIds1 hCN1 hB1 hR'
        have hnewmem : (⟨r.id, ip, ttl⟩ : DnsRecord) ∈ s1.records := by
          rw [hrec1]
          refine List.mem_map.2 ⟨r, hr_mem, ?_⟩
          rw [if_pos rfl]
        refine ⟨?_, ?_, ?_, ?_, c5, c6, hnid1 ▸ c7, c8⟩
        · intro r' h' hc
          rw [List.mem_cons] at hc
          push_neg at hc
          obtain ⟨w, hw, he⟩ := hmem1 r' (c1 r' h' hc.2)
          by_cases e : w.id = r.id
          · rw [he, if_pos e] at hc
            exact absurd rfl hc.1
          · rw [he, if_neg e]
            exact hw
        · intro r' h' hc
          rcases List.mem_cons.1 hc with hc | hc
          · have hnr : r'.content ∉ rest := hc ▸ hip_nr
            obtain ⟨w, hw, he⟩ := hmem1 r' (c1 r' h' hnr)
            by_cases e : w.id = r.id
            · rw [he, if_pos e]
            · rw [he, if_neg e] at hc ⊢
              have := hE w hw (hc ▸ List.mem_cons_self _ _)
              rw [hc, hdg] at this
              exact absurd (congrArg DnsRecord.id (Option.some_inj.1 this).symm) e
          · exact c2 r' h' hc
        · intro ip' h'
          rcases List.mem_cons.1 h' with rfl | h'
          · refine ⟨⟨r.id, ip', ttl⟩, c4 _ hnewmem hip_nr, rfl, rfl,
              Or.inl ⟨r, hdg, rfl⟩⟩
          · obtain ⟨r', hr'mem, hr'c, hr't, hprov⟩ := c3 ip' h'
            refine ⟨r', hr'mem, hr'c, hr't, ?_⟩
            rcases hprov with h'' | h''
            · exact Or.inl h''
            · exact Or.inr (hnid1 ▸ h'')
        · intro w hw hc
          rw [List.mem_cons] at hc
          push_neg at hc
          refine c4 w ?_ hc.2
          rw [hrec1]
          refine List.mem_map.2 ⟨w, hw, ?_⟩
          rw [if_neg ?_]
          intro e
          exact hc.1 (by rw [hid_eq w hw e, hr_content])

/-! ## Correctness of a full reconciliation run -/

/-- Helper: under the 1:1 precondition (pairwise distinct record contents)
    and a well-formed server (distinct ids below the fresh-id counter), a
    run leaves the remote record set with content set exactly the source
    address set, every record at the configured ttl, and contents still
    pairwise distinct. -/
theorem syncRun_correct (sourceIps : List String) (tgt : List DnsRecord) (ttl : Nat)
    (s : Server)
    (hsrc : sourceIps.Nodup)
    (hmem : ∀ r : DnsRecord, r ∈ tgt ↔ r ∈ s.records)
    (htgtc : (tgt.map DnsRecord.content).Nodup)
    (hsid : (s.records.map DnsRecord.id).Nodup)
    (hbound : ∀ r ∈ s.records, r.id < s.nextId) :
    (∀ c, c ∈ (syncServer sourceIps tgt ttl s).records.map DnsRecord.content ↔
        c ∈ sourceIps) ∧
    (∀ w ∈ (syncServer sourceIps tgt ttl s).records, w.ttl = ttl) ∧
    ((syncServer sourceIps tgt ttl s).records.map DnsRecord.content).Nodup := by
  have hKV : ∀ p ∈ buildByContent tgt, p.2.content = p.1 :=
    fun p hp => (mem_buildByContent hp).2
  have hInj : ∀ p ∈ buildByContent tgt, ∀ q ∈ buildByContent tgt,
      p.2.id = q.2.id → p = q := by
    intro p hp q hq he
    have hp' := mem_buildByContent hp
    have hq' := mem_buildByContent hq
    have hv : p.2 = q.2 :=
      List.inj_on_of_nodup_map hsid ((hmem p.2).1 hp'.1) ((hmem q.2).1 hq'.1) he
    refine Prod.ext ?_ hv
    rw [← hp'.2, ← hq'.2, hv]
  have hE0 : ∀ r ∈ s.records, r.content ∈ sourceIps →
      dictGet r.content (buildByContent tgt) = some r :=
    fun r hr _ => dictGet_self_of_nodup htgtc ((hmem r).2 hr)
  have hA0 : ∀ ip ∈ sourceIps, ∀ v, dictGet ip (buildByContent tgt) = some v →
      v ∈ s.records :=
    fun _ _ v hv => (hmem v).1 (mem_buildByContent (dictGet_mem hv)).1
  have hCN0 : (s.records.map DnsRecord.content).Nodup := by
    rw [List.nodup_map_iff_inj_on (List.Nodup.of_map _ hsid)]
    intro x hx y hy he
    exact List.inj_on_of_nodup_map htgtc ((hmem x).2 hx) ((hmem y).2 hy) he
  obtain ⟨c1, c2, c3, c4, c5, c6, c7, c8⟩ :=
    cuLoop_main (buildByContent tgt) ttl hKV hInj sourceIps s hE0 hA0 hsid hCN0
      hbound hsrc
  have hs2 : syncServer sourceIps tgt ttl s =
      (delLoop sourceIps (buildByContent tgt)
        (cuLoop (buildByContent tgt) ttl sourceIps s).1).1 := rfl
  -- a record in the post-delete state whose content is not a source ip
  -- leads to a contradiction
  have habsurd : ∀ w ∈ (syncServer sourceIps tgt ttl s).records,
      w.content ∈ sourceIps := by
    intro w hw
    rw [hs2, delLoop_mem_records] at hw
    by_contra hnc
    have hw1 : w ∈ s.records := c1 w hw.1 hnc
    have hwp : (w.content, w) ∈ buildByContent tgt :=
      mem_buildByContent_self htgtc ((hmem w).2 hw1)
    exact hw.2 (w.content, w) hwp hnc rfl
  refine ⟨?_, ?_, ?_⟩
  · intro c
    constructor
    · intro hc
      rcases List.mem_map.1 hc with ⟨w, hw, rfl⟩
      exact habsurd w hw
    · intro hc
      obtain ⟨r', hr'mem, hr'c, _, hprov⟩ := c3 c hc
      have hsurv : ∀ p ∈ buildByContent tgt, p.1 ∉ sourceIps → r'.id ≠ p.2.id := by
        intro p hp hpn he
        rcases hprov with ⟨r0, hr0, hid⟩ | hge
        · have hpe : p = (c, r0) := hInj p hp _ (dictGet_mem hr0) (by rw [← he, hid])
          exact hpn (by rw [hpe]; exact hc)
        · have : p.2.id < s.nextId :=
            hbound p.2 ((hmem p.2).1 (mem_buildByContent hp).1)
          exact absurd (he ▸ hge) (not_le.2 this)
      have : r' ∈ (syncServer sourceIps tgt ttl s).records := by
        rw [hs2, delLoop_mem_records]
        exact ⟨hr'mem, hsurv⟩
      exact List.mem_map.2 ⟨r', this, hr'c⟩
  · intro w hw
    have hc := habsurd w hw
    rw [hs2, delLoop_mem_records] at hw
    exact c2 w hw.1 hc
  · have hsub : (syncServer sourceIps tgt ttl s).records.Sublist
        (cuLoop (buildByContent tgt) ttl sourceIps s).1.records := by
      rw [hs2]
      have aux : ∀ (ps : List (String × DnsRecord)) (st : Server),
          (delLoop sourceIps ps st).1.records.Sublist st.records := by
        intro ps
        induction ps with
        | nil => intro st; exact List.Sublist.refl _
        | cons p ps ih =>
          intro st
          by_cases h : p.1 ∈ sourceIps
          · rw [show (delLoop sourceIps (p :: ps) st).1 = (delLoop sourceIps ps st).1
              from by simp [delLoop, h]]
            exact ih st
          · rw [show (delLoop sourceIps (p :: ps) st).1 =
                (delLoop sourceIps ps (st.deleteRec p.2.id)).1 from by
                  simp [delLoop, h]]
            exact (ih (st.deleteRec p.2.id)).trans (List.filter_sublist _)
      exact aux _ _
    exact List.Nodup.sublist (hsub.map DnsRecord.content) c8

/-! ## Claim C1 -/

/-- C1: for every non-empty source address set and every current remote
    record set satisfying the 1:1 address-to-record precondition, after a
    run of the sync operation in which every directory call succeeds, the
    set of content values of the post-run remote records equals the source
    address set exactly (no extras, no omissions), and every remaining
    record's ttl equals the configured ttl. -/
theorem claim_c1_sync_result_matches_sources (sourceIps : List String)
    (tgt : List DnsRecord) (ttl : Nat) (s : Server)
    (_hne : sourceIps ≠ [])
    (hsrc : sourceIps.Nodup)
    (hmem : ∀ r : DnsRecord, r ∈ tgt ↔ r ∈ s.records)
    (htgtc : (tgt.map DnsRecord.content).Nodup)
    (hsid : (s.records.map DnsRecord.id).Nodup)
    (hbound : ∀ r ∈ s.records, r.id < s.nextId) :
    (∀ c, c ∈ (syncServer sourceIps tgt ttl s).records.map DnsRecord.content ↔
        c ∈ sourceIps) ∧
    ∀ w ∈ (syncServer sourceIps tgt ttl s).records, w.ttl = ttl := by
  obtain ⟨g1, g2, _⟩ := syncRun_correct sourceIps tgt ttl s hsrc hmem htgtc hsid hbound
  exact ⟨g1, g2⟩

/-- Witness for C1 at the concrete state of the spec's Scenario 2. -/
theorem claim_c1_witness :
    (∀ c, c ∈ (syncServer ["1.2.3.4"] [⟨1, "9.9.9.9", 60⟩] 60
        ⟨[⟨1, "9.9.9.9", 60⟩], 2⟩).records.map DnsRecord.content ↔
        c ∈ ["1.2.3.4"]) ∧
    ∀ w ∈ (syncServer ["1.2.3.4"] [⟨1, "9.9.9.9", 60⟩] 60
        ⟨[⟨1, "9.9.9.9", 60⟩], 2⟩).records, w.ttl = 60 :=
  claim_c1_sync_result_matches_sources ["1.2.3.4"] [⟨1, "9.9.9.9", 60⟩] 60
    ⟨[⟨1, "9.9.9.9", 60⟩], 2⟩ (by decide) (by decide) (fun _ => Iff.rfl)
    (by decide) (by decide) (by decide)

/-! ## Claim C8 -/

/-- C8: for every list of interfaces, if address resolution produces an
    empty final address set, the run is fatal: the address-discovery error
    is reported and the process terminates with a non-zero exit status
    before any directory call (list or mutation) is made. -/
theorem claim_c8_empty_addresses_fatal (lookups : List (Option String))
    (cache : Option CacheEntry) (ttl : Nat) (s : Server)
    (h : collectAddresses lookups = []) :
    runSyncPipeline lookups cache ttl s = ([], none) := by
  simp only [runSyncPipeline, get_public_ipv4_addresses, if_pos h]

/-- Witness for C8: a single failed interface lookup. -/
theorem claim_c8_witness :
    collectAddresses [none] = [] ∧
    runSyncPipeline [none] none 60 ⟨[], 0⟩ = ([], none) :=
  ⟨rfl, claim_c8_empty_addresses_fatal [none] none 60 ⟨[], 0⟩ rfl⟩

/-! ## Claim C10 -/

/-- C10: when the current remote record set contains two records with the
    same content value, the reconciler keys records by content and
    considers only one record per content value; if that content value is
    in the source set, the duplicate record the dict does not retain is
    referenced by no create, update, or delete operation and survives the
    run unchanged. -/
theorem claim_c10_duplicate_untouched (sourceIps : List String)
    (tgt : List DnsRecord) (ttl : Nat) (s : Server) (r1 r2 : DnsRecord)
    (hmem : ∀ r : DnsRecord, r ∈ tgt ↔ r ∈ s.records)
    (hsid : (s.records.map DnsRecord.id).Nodup)
    (h1 : r1 ∈ tgt) (_hic : r1.content ∈ sourceIps)
    (hd : dictGet r1.content (buildByContent tgt) = some r2)
    (hne : r1.id ≠ r2.id) :
    (∀ op ∈ syncOps sourceIps tgt ttl s, opRefsId op ≠ some r1.id) ∧
    r1 ∈ (syncServer sourceIps tgt ttl s).records := by
  have hnotref : ∀ ip r, dictGet ip (buildByContent tgt) = some r →
      r.id ≠ r1.id := by
    intro ip r hr e
    have hpr := mem_buildByContent (dictGet_mem hr)
    have hmema : r ∈ tgt := hpr.1
    have hmemc : r.content = ip := hpr.2
    have hr_eq : r = r1 :=
      List.inj_on_of_nodup_map hsid ((hmem r).1 hmema) ((hmem r1).1 h1) e
    have hc1 : r1.content = ip := by rw [← hr_eq, hmemc]
    rw [← hc1] at hr
    rw [hr] at hd
    refine hne ?_
    rw [← e]
    exact congrArg DnsRecord.id (Option.some_inj.1 hd)
  have hpair : ∀ p ∈ buildByContent tgt, p.2.id ≠ r1.id := by
    intro p hp
    exact hnotref p.1 p.2
      (dictGet_of_mem_keys_nodup (keys_buildByContent_nodup tgt)
        (show (p.1, p.2) ∈ buildByContent tgt from hp))
  constructor
  · rw [syncOps_eq]
    intro op hop
    rcases List.mem_append.1 hop with hcu | hdel
    · rcases List.mem_filterMap.1 hcu with ⟨ip, _, hdec⟩
      rcases hg : dictGet ip (buildByContent tgt) with _ | r
      · simp only [cuDecide, hg] at hdec
        rw [← Option.some_inj.1 hdec]
        simp [opRefsId]
      · simp only [cuDecide, hg] at hdec
        by_cases htt : r.ttl = ttl
        · rw [if_pos htt] at hdec
          exact Option.noConfusion hdec
        · rw [if_neg htt] at hdec
          rw [← Option.some_inj.1 hdec]
          simp only [opRefsId, ne_eq, Option.some_inj]
          exact hnotref ip r hg
    · rcases List.mem_filterMap.1 hdel with ⟨p, hp, hdec⟩
      by_cases hmem' : p.1 ∈ sourceIps
      · rw [if_pos hmem'] at hdec
        exact Option.noConfusion hdec
      · rw [if_neg hmem'] at hdec
        rw [← Option.some_inj.1 hdec]
        simp only [opRefsId, ne_eq, Option.some_inj]
        exact hpair p hp
  · show r1 ∈ (delLoop sourceIps (buildByContent tgt)
      (cuLoop (buildByContent tgt) ttl sourceIps s).1).1.records
    rw [delLoop_mem_records]
    refine ⟨cuLoop_preserves _ ttl sourceIps s r1
      (fun ip _ r hr => hnotref ip r hr) ((hmem r1).1 h1), ?_⟩
    intro p hp _ e
    exact hpair p hp e.symm

/-- Witness for C10: two records both holding the source address; the
    first (not retained by the dict) is referenced by no operation and
    survives. -/
theorem claim_c10_witness :
    (∀ op ∈ syncOps ["1.2.3.4"] [⟨1, "1.2.3.4", 60⟩, ⟨2, "1.2.3.4", 60⟩] 60
        ⟨[⟨1, "1.2.3.4", 60⟩, ⟨2, "1.2.3.4", 60⟩], 3⟩, opRefsId op ≠ some 1) ∧
    (⟨1, "1.2.3.4", 60⟩ : DnsRecord) ∈
      (syncServer ["1.2.3.4"] [⟨1, "1.2.3.4", 60⟩, ⟨2, "1.2.3.4", 60⟩] 60
        ⟨[⟨1, "1.2.3.4", 60⟩, ⟨2, "1.2.3.4", 60⟩], 3⟩).records :=
  claim_c10_duplicate_untouched ["1.2.3.4"]
    [⟨1, "1.2.3.4", 60⟩, ⟨2, "1.2.3.4", 60⟩] 60
    ⟨[⟨1, "1.2.3.4", 60⟩, ⟨2, "1.2.3.4", 60⟩], 3⟩
    ⟨1, "1.2.3.4", 60⟩ ⟨2, "1.2.3.4", 60⟩ (fun _ => Iff.rfl) (by decide)
    (by decide) (by decide) (by decide) (by decide)

/-! ## Claim C7 -/

/-- C7: in every run, all create and update operations are issued before
    any delete operation (the trace equals its non-deletes followed by its
    deletes, in order), and the order is deterministic: when the source
    addresses are sorted, the create/update operations process them in
    sorted order, and when the target records are sorted by content, the
    delete operations process contents in sorted order. -/
theorem claim_c7_operation_order (sourceIps : List String) (tgt : List DnsRecord)
    (ttl : Nat) (s : Server)
    (hsrc : sourceIps.Pairwise (fun a b => strLeb a b = true))
    (htgt : tgt.Pairwise (fun a b => strLeb a.content b.content = true)) :
    (syncOps sourceIps tgt ttl s =
      (syncOps sourceIps tgt ttl s).filter (fun op => !isDeleteOp op) ++
        (syncOps sourceIps tgt ttl s).filter (fun op => isDeleteOp op)) ∧
    ((syncOps sourceIps tgt ttl s).filterMap opSourceIp).Pairwise
      (fun a b => strLeb a b = true) ∧
    ((syncOps sourceIps tgt ttl s).filterMap opDeleteIp).Pairwise
      (fun a b => strLeb a b = true) := by
  have hcu : ∀ op ∈ sourceIps.filterMap (cuDecide (buildByContent tgt) ttl),
      isDeleteOp op = false := by
    intro op hop
    rcases List.mem_filterMap.1 hop with ⟨ip, _, hdec⟩
    rcases hg : dictGet ip (buildByContent tgt) with _ | r
    · simp only [cuDecide, hg] at hdec
      rw [← Option.some_inj.1 hdec]
      rfl
    · simp only [cuDecide, hg] at hdec
      by_cases htt : r.ttl = ttl
      · rw [if_pos htt] at hdec
        exact Option.noConfusion hdec
      · rw [if_neg htt] at hdec
        rw [← Option.some_inj.1 hdec]
        rfl
  have hdel : ∀ op ∈ (buildByContent tgt).filterMap
      (fun p => if p.1 ∈ sourceIps then none else some (Op.delete p.2.id p.1)),
      isDeleteOp op = true := by
    intro op hop
    rcases List.mem_filterMap.1 hop with ⟨p, _, hdec⟩
    by_cases hm : p.1 ∈ sourceIps
    · rw [if_pos hm] at hdec
      exact Option.noConfusion hdec
    · rw [if_neg hm] at hdec
      rw [← Option.some_inj.1 hdec]
      rfl
  refine ⟨?_, ?_, ?_⟩
  · rw [syncOps_eq, List.filter_append, List.filter_append]
    rw [List.filter_eq_self.2 (fun a ha => by rw [hcu a ha]; rfl)]
    rw [List.filter_eq_nil_iff.2 (fun a ha => by simp [hdel a ha])]
    rw [List.filter_eq_nil_iff.2 (fun a ha => by simp [hcu a ha])]
    rw [List.filter_eq_self.2 (fun a ha => hdel a ha)]
    simp
  · have hdel2 : List.filterMap opSourceIp
        ((buildByContent tgt).filterMap
          (fun p => if p.1 ∈ sourceIps then none else some (Op.delete p.2.id p.1))) =
        [] := by
      rw [List.filterMap_eq_nil_iff]
      intro op hop
      have := hdel op hop
      cases op with
      | create ip t => exact Bool.noConfusion this
      | update rid ip t => exact Bool.noConfusion this
      | delete rid ip => rfl
    rw [syncOps_eq, List.filterMap_append, hdel2, List.append_nil]
    rw [List.filterMap_filterMap]
    refine List.Pairwise.sublist (filterMap_id_sublist ?_ sourceIps) hsrc
    intro a b hab
    rcases hg : dictGet a (buildByContent tgt) with _ | r
    · simp only [cuDecide, hg, Option.bind, opSourceIp] at hab
      exact (Option.some_inj.1 hab).symm
    · simp only [cuDecide, hg] at hab
      by_cases htt : r.ttl = ttl
      · rw [if_pos htt] at hab
        exact Option.noConfusion hab
      · rw [if_neg htt] at hab
        simp only [Option.bind, opSourceIp] at hab
        exact (Option.some_inj.1 hab).symm
  · have hcu3 : List.filterMap opDeleteIp
        (sourceIps.filterMap (cuDecide (buildByContent tgt) ttl)) = [] := by
      rw [List.filterMap_eq_nil_iff]
      intro op hop
      have := hcu op hop
      cases op with
      | create ip t => rfl
      | update rid ip t => rfl
      | delete rid ip => exact Bool.noConfusion this
    rw [syncOps_eq, List.filterMap_append, hcu3, List.nil_append]
    rw [List.filterMap_filterMap]
    refine List.Pairwise.sublist
      ((filterMap_fst_sublist ?_ (buildByContent tgt)).trans
        (keys_buildByContent_sublist tgt))
      ((List.pairwise_map).2 htgt)
    intro p b hpb
    by_cases hm : p.1 ∈ sourceIps
    · rw [if_pos hm] at hpb
      exact Option.noConfusion hpb
    · rw [if_neg hm] at hpb
      simp only [Option.bind, opDeleteIp] at hpb
      exact (Option.some_inj.1 hpb).symm

/-- Witness for C7 on sorted concrete inputs. -/
theorem claim_c7_witness :
    (syncOps ["1.1.1.1", "2.2.2.2"] [⟨1, "2.2.2.2", 60⟩, ⟨2, "3.3.3.3", 60⟩] 60
        ⟨[⟨1, "2.2.2.2", 60⟩, ⟨2, "3.3.3.3", 60⟩], 5⟩ =
      (syncOps ["1.1.1.1", "2.2.2.2"] [⟨1, "2.2.2.2", 60⟩, ⟨2, "3.3.3.3", 60⟩] 60
          ⟨[⟨1, "2.2.2.2", 60⟩, ⟨2, "3.3.3.3", 60⟩], 5⟩).filter
        (fun op => !isDeleteOp op) ++
        (syncOps ["1.1.1.1", "2.2.2.2"] [⟨1, "2.2.2.2", 60⟩, ⟨2, "3.3.3.3", 60⟩] 60
            ⟨[⟨1, "2.2.2.2", 60⟩, ⟨2, "3.3.3.3", 60⟩], 5⟩).filter
          (fun op => isDeleteOp op)) ∧
    ((syncOps ["1.1.1.1", "2.2.2.2"] [⟨1, "2.2.2.2", 60⟩, ⟨2, "3.3.3.3", 60⟩] 60
        ⟨[⟨1, "2.2.2.2", 60⟩, ⟨2, "3.3.3.3", 60⟩], 5⟩).filterMap opSourceIp).Pairwise
      (fun a b => strLeb a b = true) ∧
    ((syncOps ["1.1.1.1", "2.2.2.2"] [⟨1, "2.2.2.2", 60⟩, ⟨2, "3.3.3.3", 60⟩] 60
        ⟨[⟨1, "2.2.2.2", 60⟩, ⟨2, "3.3.3.3", 60⟩], 5⟩).filterMap opDeleteIp).Pairwise
      (fun a b => strLeb a b = true) :=
  claim_c7_operation_order ["1.1.1.1", "2.2.2.2"]
    [⟨1, "2.2.2.2", 60⟩, ⟨2, "3.3.3.3", 60⟩] 60
    ⟨[⟨1, "2.2.2.2", 60⟩, ⟨2, "3.3.3.3", 60⟩], 5⟩ (by decide) (by decide)

/-! ## Claim C4 -/

/-- Counterexample to C4 as stated: a second run of `cf-ddns-sync.py` with
    unchanged sources, unchanged remote state and a valid cache still makes
    a directory list call — `sync_records` unconditionally re-fetches after
    the (empty) mutation phase to refresh the cache. -/
theorem claim_c4_counterexample :
    should_refresh_cache (some ⟨0, [⟨1, "9.9.9.9", 60⟩]⟩) ["9.9.9.9"] = false ∧
    DirCall.list ∈ (runSyncPipeline [some "9.9.9.9"]
      (some ⟨0, [⟨1, "9.9.9.9", 60⟩]⟩) 60 ⟨[⟨1, "9.9.9.9", 60⟩], 2⟩).1 := by
  decide

/-- C4 (amended): a second run with unchanged source addresses and
    unchanged remote state issues zero create, update and delete
    operations; when the cache is valid, the pre-mutation directory list
    call is skipped; the whole second run of `cf-ddns-sync.py` makes
    exactly one directory call — the post-mutation list that refreshes the
    cache — and leaves the server unchanged. -/
theorem claim_c4_second_run_noop (sourceIps : List String)
    (tgt : List DnsRecord) (ttl : Nat) (s : Server)
    (hne : sourceIps ≠ [])
    (hsrc : sourceIps.Nodup)
    (hmem : ∀ r : DnsRecord, r ∈ tgt ↔ r ∈ s.records)
    (htgtc : (tgt.map DnsRecord.content).Nodup)
    (hsid : (s.records.map DnsRecord.id).Nodup)
    (hbound : ∀ r ∈ s.records, r.id < s.nextId) :
    syncOps sourceIps (sortByContent (syncServer sourceIps tgt ttl s).records) ttl
      (syncServer sourceIps tgt ttl s) = [] ∧
    (∀ cache fetched, should_refresh_cache cache sourceIps = false →
      (get_dns_records cache sourceIps fetched).2 = false) ∧
    (∀ lookups t, get_public_ipv4_addresses lookups = Except.ok sourceIps →
      runSyncPipeline lookups (some ⟨t, (syncServer sourceIps tgt ttl s).records⟩)
        ttl (syncServer sourceIps tgt ttl s) =
        ([DirCall.list], some (syncServer sourceIps tgt ttl s))) := by
  obtain ⟨g1, g2, g3⟩ := syncRun_correct sourceIps tgt ttl s hsrc hmem htgtc hsid hbound
  have hsortmem : ∀ r : DnsRecord,
      r ∈ sortByContent (syncServer sourceIps tgt ttl s).records ↔
        r ∈ (syncServer sourceIps tgt ttl s).records :=
    fun r => (sortByContent_perm _).mem_iff
  have h1 : ∀ ip ∈ sourceIps, ip ∈
      (sortByContent (syncServer sourceIps tgt ttl s).records).map
        DnsRecord.content := by
    intro ip hip
    have := (g1 ip).2 hip
    exact ((sortByContent_perm _).map DnsRecord.content).mem_iff.2 this
  have h2 : ∀ r ∈ sortByContent (syncServer sourceIps tgt ttl s).records,
      r.ttl = ttl := fun r hr => g2 r ((hsortmem r).1 hr)
  have h3 : ∀ r ∈ sortByContent (syncServer sourceIps tgt ttl s).records,
      r.content ∈ sourceIps := by
    intro r hr
    exact (g1 r.content).1 (List.mem_map.2 ⟨r, (hsortmem r).1 hr, rfl⟩)
  have hopsnil := syncOps_nil sourceIps
    (sortByContent (syncServer sourceIps tgt ttl s).records) ttl
    (syncServer sourceIps tgt ttl s) h1 h2 h3
  refine ⟨hopsnil, ?_, ?_⟩
  · intro cache fetched h
    cases cache with
    | none => exact absurd h (by simp [should_refresh_cache])
    | some c => simp [get_dns_records, h]
  · intro lookups t hok
    have hrecne : (syncServer sourceIps tgt ttl s).records ≠ [] := by
      rcases List.exists_mem_of_ne_nil sourceIps hne with ⟨ip, hip⟩
      rcases List.mem_map.1 ((g1 ip).2 hip) with ⟨w, hw, _⟩
      exact List.ne_nil_of_mem hw
    have hperm : ((syncServer sourceIps tgt ttl s).records.map
        DnsRecord.content).Perm sourceIps :=
      (List.perm_ext_iff_of_nodup g3 hsrc).2 g1
    have hval : should_refresh_cache
        (some ⟨t, (syncServer sourceIps tgt ttl s).records⟩) sourceIps = false := by
      simp only [should_refresh_cache, if_neg hrecne, Bool.or_eq_false_iff]
      constructor
      · simp only [decide_eq_false_iff_not, ne_eq, not_not]
        rw [List.dedup_eq_self.2 g3]
        exact hperm.length_eq.symm
      · rw [List.any_eq_false]
        intro ip hip
        simp only [decide_eq_true_eq, not_not]
        rw [List.mem_dedup]
        exact (g1 ip).2 hip
    have hfetch : get_dns_records
        (some ⟨t, (syncServer sourceIps tgt ttl s).records⟩) sourceIps
        (syncServer sourceIps tgt ttl s).records =
        (sortByContent (syncServer sourceIps tgt ttl s).records, false) := by
      simp [get_dns_records, hval]
    have hsrv := syncServer_id sourceIps
      (sortByContent (syncServer sourceIps tgt ttl s).records) ttl
      (syncServer sourceIps tgt ttl s) h1 h2 h3
    simp only [runSyncPipeline, hok, hfetch, hopsnil, hsrv]
    rfl

/-- Witness for C4 (amended) at the concrete state of Scenario 2. -/
theorem claim_c4_witness :
    syncOps ["1.2.3.4"]
      (sortByContent (syncServer ["1.2.3.4"] [⟨1, "9.9.9.9", 60⟩] 60
        ⟨[⟨1, "9.9.9.9", 60⟩], 2⟩).records) 60
      (syncServer ["1.2.3.4"] [⟨1, "9.9.9.9", 60⟩] 60
        ⟨[⟨1, "9.9.9.9", 60⟩], 2⟩) = [] ∧
    (∀ cache fetched, should_refresh_cache cache ["1.2.3.4"] = false →
      (get_dns_records cache ["1.2.3.4"] fetched).2 = false) ∧
    (∀ lookups t, get_public_ipv4_addresses lookups = Except.ok ["1.2.3.4"] →
      runSyncPipeline lookups
        (some ⟨t, (syncServer ["1.2.3.4"] [⟨1, "9.9.9.9", 60⟩] 60
          ⟨[⟨1, "9.9.9.9", 60⟩], 2⟩).records⟩) 60
        (syncServer ["1.2.3.4"] [⟨1, "9.9.9.9", 60⟩] 60
          ⟨[⟨1, "9.9.9.9", 60⟩], 2⟩) =
        ([DirCall.list], some (syncServer ["1.2.3.4"] [⟨1, "9.9.9.9", 60⟩] 60
          ⟨[⟨1, "9.9.9.9", 60⟩], 2⟩))) :=
  claim_c4_second_run_noop ["1.2.3.4"] [⟨1, "9.9.9.9", 60⟩] 60
    ⟨[⟨1, "9.9.9.9", 60⟩], 2⟩ (by decide) (by decide) (fun _ => Iff.rfl)
    (by decide) (by decide) (by decide)

/-! ## Claim C2 -/

/-- Counterexample to C2 as stated: with no cache and an empty remote
    record list, the run is not fatal — no `Unknown host` check exists in
    either script.  The run completes (`isSome`) and issues a create
    mutation, contradicting "terminates with a non-zero exit status and
    issues no create/update/delete call". -/
theorem claim_c2_counterexample :
    (runSyncPipeline [some "1.2.3.4"] none 60 ⟨[], 0⟩).2.isSome = true ∧
    DirCall.create "1.2.3.4" 60 ∈
      (runSyncPipeline [some "1.2.3.4"] none 60 ⟨[], 0⟩).1 := by
  decide

/-- C2 (amended): when the cache is not valid and the directory list call
    returns an empty record list, the run does not treat this as fatal:
    it proceeds, issuing exactly one create call per source address (and
    no update or delete), then the final cache-refresh list call, and
    completes normally. -/
theorem claim_c2_amended_empty_list_proceeds (lookups : List (Option String))
    (cache : Option CacheEntry) (ttl : Nat) (s : Server) (sourceIps : List String)
    (hok : get_public_ipv4_addresses lookups = Except.ok sourceIps)
    (hrf : should_refresh_cache cache sourceIps = true)
    (hrec : s.records = []) :
    (runSyncPipeline lookups cache ttl s).1 =
      DirCall.list ::
        (sourceIps.map (fun ip => DirCall.create ip ttl) ++ [DirCall.list]) ∧
    (runSyncPipeline lookups cache ttl s).2.isSome = true := by
  have hfetch : get_dns_records cache sourceIps s.records =
      (sortByContent s.records, true) := by
    cases cache with
    | none => rfl
    | some c => simp [get_dns_records, hrf]
  have hops : syncOps sourceIps (sortByContent s.records) ttl s =
      sourceIps.map (fun ip => Op.create ip ttl) := by
    rw [hrec]
    rw [show sortByContent ([] : List DnsRecord) = [] from rfl, syncOps_eq]
    rw [show buildByContent ([] : List DnsRecord) = [] from rfl]
    rw [List.filterMap_nil, List.append_nil]
    have aux : ∀ l : List String,
        l.filterMap (cuDecide [] ttl) = l.map (fun ip => Op.create ip ttl) := by
      intro l
      induction l with
      | nil => rfl
      | cons a l ih =>
        rw [List.filterMap_cons, List.map_cons]
        rw [show cuDecide [] ttl a = some (Op.create a ttl) from rfl]
        rw [ih]
    exact aux sourceIps
  constructor
  · simp only [runSyncPipeline, hok, hfetch, hops]
    rw [List.map_map]
    rfl
  · simp only [runSyncPipeline, hok]
    rfl

/-- Witness for C2 (amended) at the counterexample state. -/
theorem claim_c2_witness :
    (runSyncPipeline [some "1.2.3.4"] none 60 ⟨[], 0⟩).1 =
      DirCall.list ::
        (["1.2.3.4"].map (fun ip => DirCall.create ip 60) ++ [DirCall.list]) ∧
    (runSyncPipeline [some "1.2.3.4"] none 60 ⟨[], 0⟩).2.isSome = true :=
  claim_c2_amended_empty_list_proceeds [some "1.2.3.4"] none 60 ⟨[], 0⟩
    ["1.2.3.4"] rfl rfl rfl

/-! ## Claim C3 -/

/-- Counterexample to C3 as stated: a present, non-empty cache whose
    content set is set-equal to the source set (the spec's validity
    predicate holds) is nevertheless rejected by the `cf-ddns.py` check,
    because that check compares the source count against the cached record
    count with multiplicity. -/
theorem claim_c3_counterexample :
    specCacheValid (some [⟨1, "1.1.1.1", 60⟩, ⟨2, "1.1.1.1", 60⟩])
      ["1.1.1.1"] = true ∧
    use_cache_check (some [⟨1, "1.1.1.1", 60⟩, ⟨2, "1.1.1.1", 60⟩])
      ["1.1.1.1"] = false := by
  decide

/-- C3 (amended): the `cf-ddns-sync.py` check satisfies the claimed iff —
    the cache is used exactly when it is present, non-empty, and its
    content set is set-equal to the source address set — and the timestamp
    has no influence.  The `cf-ddns.py` check instead requires the source
    count to equal the cached record count with multiplicity and each
    source ip to occur among the cached contents, so duplicate cached
    contents invalidate a set-equal cache (and record-list emptiness is
    not separately tested). -/
theorem claim_c3_amended_cache_validity (cache : Option CacheEntry)
    (sourceIps : List String) (hsrc : sourceIps.Nodup) :
    (should_refresh_cache cache sourceIps = false ↔
      specCacheValid (cache.map CacheEntry.records) sourceIps = true) ∧
    (∀ t t' rs, should_refresh_cache (some ⟨t, rs⟩) sourceIps =
      should_refresh_cache (some ⟨t', rs⟩) sourceIps) ∧
    (∀ rs : List DnsRecord, use_cache_check (some rs) sourceIps = true ↔
      (sourceIps.length = rs.length ∧
        ∀ ip ∈ sourceIps, ip ∈ rs.map DnsRecord.content)) ∧
    use_cache_check none sourceIps = false := by
  refine ⟨?_, fun t t' rs => rfl, ?_, rfl⟩
  · cases cache with
    | none => simp [should_refresh_cache, specCacheValid]
    | some c =>
      by_cases hrecs : c.records = []
      · simp [should_refresh_cache, specCacheValid, hrecs]
      · simp only [Option.map_some', should_refresh_cache, if_neg hrecs,
          specCacheValid, Bool.or_eq_false_iff, Bool.and_eq_true,
          decide_eq_false_iff_not, ne_eq, not_not, List.any_eq_false,
          decide_eq_true_eq, List.all_eq_true]
        constructor
        · rintro ⟨hlen, hsub⟩
          have hsub' : ∀ x ∈ sourceIps, x ∈ c.records.map DnsRecord.content :=
            fun x hx => List.mem_dedup.1 (hsub x hx)
          have hsubF : sourceIps.toFinset ⊆
              (c.records.map DnsRecord.content).toFinset :=
            fun x hx => List.mem_toFinset.2 (hsub' x (List.mem_toFinset.1 hx))
          have hcard : (c.records.map DnsRecord.content).toFinset.card ≤
              sourceIps.toFinset.card := by
            rw [List.card_toFinset, List.toFinset_card_of_nodup hsrc]
            exact le_of_eq hlen.symm
          have heq := Finset.eq_of_subset_of_card_le hsubF hcard
          refine ⟨⟨hrecs, fun x hx => ?_⟩, hsub'⟩
          have hxF := List.mem_toFinset.2 hx
          rw [← heq] at hxF
          exact List.mem_toFinset.1 hxF
        · rintro ⟨⟨_, hsup⟩, hsub⟩
          refine ⟨?_, fun x hx => List.mem_dedup.2 (hsub x hx)⟩
          have heq : sourceIps.toFinset =
              (c.records.map DnsRecord.content).toFinset := by
            ext x
            simp only [List.mem_toFinset]
            exact ⟨fun h => hsub x h, fun h => hsup x h⟩
          calc sourceIps.length = sourceIps.toFinset.card :=
                (List.toFinset_card_of_nodup hsrc).symm
            _ = (c.records.map DnsRecord.content).toFinset.card := by rw [heq]
            _ = (c.records.map DnsRecord.content).dedup.length :=
                List.card_toFinset _
  · intro rs
    simp only [use_cache_check, Bool.and_eq_true, decide_eq_true_eq,
      List.all_eq_true]
    constructor
    · rintro ⟨hlen, hmem⟩
      refine ⟨?_, fun ip hip => (sortStrings_perm _).mem_iff.1 (hmem ip hip)⟩
      rw [hlen, (sortStrings_perm _).length_eq, List.length_map]
    · rintro ⟨hlen, hmem⟩
      refine ⟨?_, fun ip hip => (sortStrings_perm _).mem_iff.2 (hmem ip hip)⟩
      rw [(sortStrings_perm _).length_eq, List.length_map, hlen]

/-- Witness for C3 (amended) at a concrete valid cache. -/
theorem claim_c3_witness :
    (should_refresh_cache (some ⟨7, [⟨1, "1.1.1.1", 60⟩]⟩) ["1.1.1.1"] = false ↔
      specCacheValid ((some ⟨7, [⟨1, "1.1.1.1", 60⟩]⟩).map CacheEntry.records)
        ["1.1.1.1"] = true) ∧
    (∀ t t' rs, should_refresh_cache (some ⟨t, rs⟩) ["1.1.1.1"] =
      should_refresh_cache (some ⟨t', rs⟩) ["1.1.1.1"]) ∧
    (∀ rs : List DnsRecord, use_cache_check (some rs) ["1.1.1.1"] = true ↔
      (["1.1.1.1"].length = rs.length ∧
        ∀ ip ∈ ["1.1.1.1"], ip ∈ rs.map DnsRecord.content)) ∧
    use_cache_check none ["1.1.1.1"] = false :=
  claim_c3_amended_cache_validity (some ⟨7, [⟨1, "1.1.1.1", 60⟩]⟩)
    ["1.1.1.1"] (by decide)

/-! ## Claim C5 -/

/-- Helper: the contents of the `updated_records` list assembled by the
    create/update loop are exactly the processed source addresses. -/
theorem cuLoop_assembled_contents (existing : List (String × DnsRecord))
    (ttl : Nat) (hKV : ∀ p ∈ existing, p.2.content = p.1) :
    ∀ (rest : List String) (s : Server),
      (cuLoop existing ttl rest s).2.1.map DnsRecord.content = rest := by
  intro rest
  induction rest with
  | nil => intro s; rfl
  | cons ip rest ih =>
    intro s
    rcases hdg : dictGet ip existing with _ | r
    · simp only [cuLoop, hdg, List.map_cons]
      rw [ih]
    · by_cases htt : r.ttl = ttl
      · simp only [cuLoop, hdg, htt, eq_self_iff_true, if_true, List.map_cons]
        rw [ih, hKV _ (dictGet_mem hdg)]
      · simp only [cuLoop, hdg, if_neg htt, List.map_cons]
        rw [ih]

/-- Counterexample to C5 as stated: with a duplicated remote content,
    `cf-ddns.py` writes its locally assembled list to the cache, which
    omits the surviving duplicate record and so differs from the live
    post-mutation server records. -/
theorem claim_c5_counterexample :
    cacheWrittenDdnsVariant ["1.2.3.4"]
        [⟨1, "1.2.3.4", 60⟩, ⟨2, "1.2.3.4", 60⟩] 60
        ⟨[⟨1, "1.2.3.4", 60⟩, ⟨2, "1.2.3.4", 60⟩], 3⟩ ≠
      (syncServer ["1.2.3.4"] [⟨1, "1.2.3.4", 60⟩, ⟨2, "1.2.3.4", 60⟩] 60
        ⟨[⟨1, "1.2.3.4", 60⟩, ⟨2, "1.2.3.4", 60⟩], 3⟩).records := by
  decide

/-- C5 (amended): `cf-ddns-sync.py` refreshes the cache from a
    post-mutation re-fetch, so what it writes is exactly the live post-run
    server record list; `cf-ddns.py` instead writes the locally assembled
    per-source-address list, whose content values are exactly the source
    addresses but which need not equal the live server state. -/
theorem claim_c5_amended_cache_written (sourceIps : List String)
    (tgt : List DnsRecord) (ttl : Nat) (s : Server) :
    cacheWrittenSyncVariant sourceIps tgt ttl s =
      (syncServer sourceIps tgt ttl s).records ∧
    (syncAssembled sourceIps tgt ttl s).map DnsRecord.content = sourceIps := by
  refine ⟨rfl, ?_⟩
  exact cuLoop_assembled_contents (buildByContent tgt) ttl
    (fun p hp => (mem_buildByContent hp).2) sourceIps s

/-! ## Claim C6 -/

/-- Counterexample to C6 as stated: in `cf-ddns-sync.py`, a failure to
    open the cache file is not caught anywhere in `_write_cache`, so the
    exception propagates and aborts the run. -/
theorem claim_c6_counterexample :
    write_cache_sync_variant true false ≠ Except.ok () :=
  fun h => Except.noConfusion h

/-- C6 (amended): in `cf-ddns.py`, failures to open or write the cache
    file are swallowed, but a failure to create the cache directory (the
    `mkdir` runs before the `try`) propagates; in `cf-ddns-sync.py` no
    cache-write failure is caught at all — both the directory-creation and
    the file-open failure propagate and abort the run. -/
theorem claim_c6_amended_cache_write_failure :
    (∀ o, write_cache_ddns_variant true o = Except.ok ()) ∧
    (∀ o, write_cache_ddns_variant false o = Except.error "OSError") ∧
    write_cache_sync_variant true false = Except.error "OSError" ∧
    write_cache_sync_variant false true = Except.error "OSError" ∧
    write_cache_sync_variant true true = Except.ok () :=
  ⟨fun _ => rfl, fun _ => rfl, rfl, rfl, rfl⟩

/-! ## Claim C9 -/

/-- Counterexample to C9 as stated: `_read_cache` in `cf-ddns-sync.py`
    catches only `FileNotFoundError` and `json.JSONDecodeError`; a
    permission error propagates instead of yielding `None`. -/
theorem claim_c9_counterexample :
    read_cache_sync_variant ReadOutcome.permissionDenied ≠ Except.ok none :=
  fun h => Except.noConfusion h

/-- C9 (amended): `read_cache` in `cf-ddns.py` fails open on a missing
    file, corrupt content and permission denied; `_read_cache` in
    `cf-ddns-sync.py` fails open on a missing file and corrupt content,
    but a permission error is uncaught and aborts the run. -/
theorem claim_c9_amended_read_fails_open :
    read_cache_ddns_variant ReadOutcome.missing = Except.ok none ∧
    read_cache_ddns_variant ReadOutcome.corrupt = Except.ok none ∧
    read_cache_ddns_variant ReadOutcome.permissionDenied = Except.ok none ∧
    read_cache_sync_variant ReadOutcome.missing = Except.ok none ∧
    read_cache_sync_variant ReadOutcome.corrupt = Except.ok none ∧
    read_cache_sync_variant ReadOutcome.permissionDenied =
      Except.error "PermissionError" :=
  ⟨rfl, rfl, rfl, rfl, rfl, rfl⟩

end CfDdns
